import Mathlib

/-!
Verification development for the moremoneymorelove catalog scraper.

The Python sources (scraper.py, embeddings.py, database.py, main.py, config.py)
are shallowly embedded below:
* pure functions become Lean functions over explicit data types;
* network and storage effects are passed in as explicit response oracles;
* Python floats are modelled by ℝ (embeddings) and ℚ (price parsing and
  2-decimal formatting, with rounding of f-string formatting modelled by
  rational rounding);
* Python dict rows become association lists of string keys and JSON-ish values;
* `while True` loops are modelled with an explicit fuel parameter.
-/

set_option maxHeartbeats 1000000
set_option maxRecDepth 8000

namespace MMScraper

/-! ## config.py constants -/

def SOURCE : String := "scraper"
def BRAND : String := "Moremoney Morelove"
def SECOND_HAND : Bool := false
def BASE_URL : String := "https://moremoneymorelove.de"
def LIMIT_PER_PAGE : Nat := 50
def MAX_RETRIES : Nat := 3
def CHUNK_SIZE : Nat := 100
def EMBEDDING_DIM : Nat := 768

/-! ## Scalar values of variant price fields

A Shopify variant price field holds either JSON null (modelled by `Option`)
or a string.  Python code applies `float(...)` to such strings inside
`try/except`; we split strings up front into those `float` accepts (`num`,
carrying the parsed rational value) and those it rejects (`nonnum`). -/

inductive PVal where
  | num (s : String) (q : ℚ)
  | nonnum (s : String)
deriving DecidableEq

def PVal.str : PVal → String
  | .num s _ => s
  | .nonnum s => s

def PVal.toNum : PVal → Option ℚ
  | .num _ q => some q
  | .nonnum _ => none

/-- Python truthiness of an optional string-backed value: None and "" are falsy. -/
def truthy : Option PVal → Bool
  | none => false
  | some v => v.str ≠ ""

/-! ## Decimal rendering: model of Python f-string `:.2f` formatting -/

def digitChar (n : Nat) : Char :=
  [ '0', '1', '2', '3', '4', '5', '6', '7', '8', '9'].getD n '0'

/-- Digits of `n`, most significant first, accumulated into `acc`.
Fuel-based: `fuel = n` always suffices since `n / 10` shrinks. -/
def natDigitsAux : Nat → Nat → List Char → List Char
  | 0, _, acc => acc
  | fuel + 1, n, acc =>
    if n = 0 then acc else natDigitsAux fuel (n / 10) (digitChar (n % 10) :: acc)

def natDigits (n : Nat) : List Char :=
  if n = 0 then [ '0'] else natDigitsAux n n []

/-- Characters of Python `f"{x:.2f}"` applied to a rational `x`:
optional minus sign, integer digits, a dot, exactly two fractional digits.
IEEE half-even rounding of the binary float is modelled by rational rounding. -/
def fmt2Chars (q : ℚ) : List Char :=
  (if round (q * 100) < 0 then [ '-'] else [])
    ++ natDigits ((round (q * 100)).natAbs / 100)
    ++ [ '.', digitChar ((round (q * 100)).natAbs % 100 / 10),
         digitChar ((round (q * 100)).natAbs % 10)]

def fmt2 (q : ℚ) : String := ⟨fmt2Chars q⟩

/-- The body of the money-shape check, applied after an optional leading
minus sign has been dropped: a nonempty digit run, a dot, two digits, `EUR`. -/
def moneyCore (core : List Char) : Bool :=
  (decide (core.takeWhile Char.isDigit ≠ [])) &&
    match core.dropWhile Char.isDigit with
    | '.' :: d1 :: d2 :: 'E' :: 'U' :: 'R' :: [] => d1.isDigit && d2.isDigit
    | _ => false

def moneyChars (l : List Char) : Bool :=
  moneyCore (if l.head? = some '-' then l.tail else l)

def moneyFormat (s : String) : Bool := moneyChars s.data

/-! ## String helpers that model Python `str` methods (ASCII behaviour) -/

def pyUpper (s : String) : String := ⟨s.data.map Char.toUpper⟩

def pyLower (s : String) : String := ⟨s.data.map Char.toLower⟩

/-- Python `needle in hay` substring test. -/
def strMem (needle hay : String) : Bool :=
  hay.data.tails.any fun t => needle.data.isPrefixOf t

/-! ## scraper.py: raw listing data model -/

structure ImageObj where
  src : Option String := none
deriving DecidableEq

structure OptionObj where
  name : Option String := none
  values : Option (List String) := none
deriving DecidableEq

structure Variant where
  price : Option PVal := none
  compare_at_price : Option PVal := none
deriving DecidableEq

structure Product where
  handle : Option String := none
  title : Option String := none
  body_html : Option String := none
  product_type : Option String := none
  vendor : Option String := none
  tags : Option (List String) := none
  variants : Option (List Variant) := none
  images : Option (List ImageObj) := none
  options : Option (List OptionObj) := none
deriving DecidableEq

/-! ## scraper.py: record normalizer -/

/-- `_normalize_category` of scraper.py. -/
def normalize_category (ptype : Option String) : Option String :=
  match ptype with
  | none => none
  | some t =>
    if t = "" then none
    else
      let out := (t.replace " & " ", ").replace " and " ", "
      if out = "" then none else some out.trim

/-- `_infer_gender` of scraper.py: uppercase the tags, the product type and the
title, then look for the markers GIRLS (type and title), GIRL (any tag) and
WOMEN (type and title). -/
def infer_gender (p : Product) : String :=
  let tags := (p.tags.getD []).map pyUpper
  let ptype := pyUpper (p.product_type.getD "")
  let title := pyUpper (p.title.getD "")
  if strMem "GIRLS" ptype || strMem "GIRLS" title || tags.any (fun t => strMem "GIRL" t) then
    "woman"
  else if strMem "WOMEN" ptype || strMem "WOMEN" title then
    "woman"
  else
    "man"

/-- `_price_string` of scraper.py: first variant only; compare-at price
preferred over the direct price; numeric values are formatted `:.2f`, while a
value rejected by `float` falls into the `except` branch that emits it
verbatim with the currency code appended. -/
def price_string (p : Product) : Option String :=
  match p.variants.getD [] with
  | [] => none
  | v :: _ =>
    let value := if truthy v.compare_at_price then v.compare_at_price else v.price
    if truthy value then
      match value with
      | some (.num _ q) => some ⟨fmt2Chars q ++ [ 'E', 'U', 'R']⟩
      | some (.nonnum s) => some (s ++ "EUR")
      | none => none
    else none

/-- `_sale_value` of scraper.py: first variant only; the direct price is
emitted (formatted `:.2f`) when both prices parse as floats and the direct
price is strictly below the compare-at price; if the compare-at field is
truthy but either value is rejected by `float`, the `except` branch emits the
raw direct price with the currency code appended. -/
def sale_value (p : Product) : Option String :=
  match p.variants.getD [] with
  | [] => none
  | v :: _ =>
    match v.price with
    | none => none
    | some pv =>
      if pv.str = "" then none
      else
        match v.compare_at_price with
        | none => none
        | some cv =>
          if cv.str = "" then none
          else
            match pv.toNum, cv.toNum with
            | some qp, some qc =>
              if qp < qc then some ⟨fmt2Chars qp ++ [ 'E', 'U', 'R']⟩ else none
            | _, _ => some (pv.str ++ "EUR")

/-- `_product_url` of scraper.py. -/
def productUrl (handle : String) : String := BASE_URL ++ "/en/products/" ++ handle

/-- `_image_urls` of scraper.py: first truthy image src is the primary image,
the remaining ones are joined with " , ". -/
def image_urls (p : Product) : String × String :=
  let images := p.images.getD []
  let urls := ((images.filterMap fun img => img.src).filter fun u => u ≠ "").filter fun u => u ≠ ""
  match urls with
  | [] => ("", "")
  | main :: rest => (main, if rest = [] then "" else String.intercalate " , " rest)

/-- `_sizes` of scraper.py: first option whose lowered name is a size synonym
yields its comma-joined values; otherwise null. -/
def sizes (p : Product) : Option String :=
  let options := p.options.getD []
  match options.find? (fun o =>
      let n := pyLower (o.name.getD "")
      n = "size" || n = "größe" || n = "grösse") with
  | some o => some (String.intercalate ", " (o.values.getD []))
  | none => none

/-- Canonical domain record built by `product_to_record` (no embeddings).
`metadata` holds the serialized metadata text (see `metaSerialize`); `brand`
is absent until main.py sets it. -/
structure Record where
  product_url : String
  image_url : String
  additional_images : String
  title : String
  description : Option String
  category : Option String
  gender : String
  price : Option String
  sale : Option String
  size : Option String
  metadata : Option String
  tags : List String
  brand : Option String := none
deriving DecidableEq

/-- Stand-in for `json.dumps` of the metadata dict built in
`product_to_record` (vendor, product_type, tags, variants_count, options).
The JSON surface syntax is abstracted into a plain textual encoding; no claim
depends on this string's exact shape, only on it being present. -/
def metaSerialize (p : Product) : String :=
  "vendor=" ++ p.vendor.getD "null"
    ++ ";product_type=" ++ p.product_type.getD "null"
    ++ ";tags=" ++ String.intercalate "," (p.tags.getD [])
    ++ ";variants_count=" ++ (⟨natDigits (p.variants.getD []).length⟩ : String)
    ++ ";options=" ++ String.intercalate "," ((p.options.getD []).map fun o => o.name.getD "")

/-- Python `x or None` on an optional string: an empty string becomes null. -/
def orNone (o : Option String) : Option String :=
  match o with
  | some "" => none
  | x => x

/-- `product_to_record` of scraper.py.  HTML tag stripping is an external
utility (BeautifulSoup) and is passed in as `stripHtml`. -/
def product_to_record (stripHtml : String → String) (p : Product) : Record :=
  let handle := p.handle.getD ""
  let iu := image_urls p
  let description := stripHtml (p.body_html.getD "")
  { product_url := productUrl handle
    image_url := iu.1
    additional_images := iu.2
    title := (p.title.getD "").trim
    description := if description = "" then none else some description
    category := normalize_category p.product_type
    gender := infer_gender p
    price := orNone (price_string p)
    sale := sale_value p
    size := sizes p
    metadata := some (metaSerialize p)
    tags := p.tags.getD [] }

/-! ## embeddings.py: dimension fitting (`EmbeddingGenerator._ensure_dim`)

Numpy float64 arithmetic is modelled over ℝ. -/

def sumSq (v : List ℝ) : ℝ := (v.map fun x => x ^ 2).sum

noncomputable def l2norm (v : List ℝ) : ℝ := Real.sqrt (sumSq v)

/-- `_ensure_dim` of embeddings.py: normalize to unit length; truncate and
re-normalize when longer than 768; zero-pad and re-normalize when shorter;
a nonpositive initial norm yields no embedding.  The re-normalization after
truncation or padding is guarded by a `norm > 0` check. -/
noncomputable def ensure_dim (v0 : List ℝ) : Option (List ℝ) :=
  let norm := l2norm v0
  if norm ≤ 0 then none
  else
    let v := v0.map fun x => x / norm
    if v.length = EMBEDDING_DIM then some v
    else if EMBEDDING_DIM < v.length then
      let t := v.take EMBEDDING_DIM
      let norm2 := l2norm t
      some (if 0 < norm2 then t.map (fun x => x / norm2) else t)
    else
      let padded := v ++ List.replicate (EMBEDDING_DIM - v.length) 0
      let norm3 := l2norm padded
      some (if 0 < norm3 then padded.map (fun x => x / norm3) else padded)

/-! ## database.py -/

/-- JSON-ish value stored in a row dict. -/
inductive Val where
  | null
  | str (v : String)
  | bool (v : Bool)
  | strList (v : List String)
  | vec (v : List ℚ)
deriving DecidableEq

/-- A row as built by `prepare_row`: a Python dict modelled as an association
list of key/value pairs in insertion order. -/
def Row : Type := List (String × Val)

instance : DecidableEq Row := by
  unfold Row
  infer_instance

/-- Python `row.get(k)`: the stored value, or None when the key is absent. -/
def rget (r : Row) (k : String) : Val := ((r : List (String × Val)).lookup k).getD .null

/-- Stand-in for `generate_id` of database.py (`hashlib.sha256` hex digest of
`"source:product_url"`): the hash is abstracted into the injective plain
encoding of the same pair. -/
def generate_id (source product_url : String) : String := source ++ ":" ++ product_url

def optStrVal : Option String → Val
  | none => .null
  | some s => .str s

/-- `prepare_row` of database.py: the full persisted row shape; the embedding
keys are present only when the corresponding embedding was produced. -/
def prepare_row (record : Record) (image_embedding info_embedding : Option (List ℚ)) : Row :=
  let product_url := record.product_url
  let product_id := generate_id SOURCE product_url
  let base : List (String × Val) :=
    [ ("id", .str product_id),
      ("source", .str SOURCE),
      ("product_url", .str product_url),
      ("affiliate_url", .null),
      ("image_url", .str record.image_url),
      ("brand", .str BRAND),
      ("title", .str record.title),
      ("description", optStrVal record.description),
      ("category", optStrVal record.category),
      ("gender", .str record.gender),
      ("metadata", optStrVal record.metadata),
      ("size", optStrVal record.size),
      ("second_hand", .bool SECOND_HAND),
      ("country", .null),
      ("compressed_image_url", .null),
      ("tags", .strList record.tags),
      ("other", .null),
      ("price", optStrVal record.price),
      ("sale", optStrVal record.sale),
      ("additional_images", optStrVal (orNone (some record.additional_images)))]
  base
    ++ (match image_embedding with
        | some e => [ ("image_embedding", Val.vec e)]
        | none => [])
    ++ (match info_embedding with
        | some e => [ ("info_embedding", Val.vec e)]
        | none => [])

def rowKeys (r : Row) : List String := (r : List (String × Val)).map Prod.fst

/-- The union of all keys over the batch (`all_keys` in `_normalize_rows`).
Python iterates a hash set in unspecified order; the model determinizes it as
first-occurrence order, which carries the same set of keys. -/
def allKeys (rows : List Row) : List String := ((rows.map rowKeys).flatten).dedup

def normalizeRow (ks : List String) (r : Row) : Row := ks.map fun k => (k, rget r k)

/-- `_normalize_rows` of database.py: give every row the same key set, filling
missing keys with null. -/
def normalize_rows (rows : List Row) : List Row :=
  match rows with
  | [] => []
  | _ => rows.map (normalizeRow (allKeys rows))

/-- Chunks of `CHUNK_SIZE` (100), in order. -/
def chunks100 {α : Type} : List α → List (List α)
  | [] => []
  | x :: xs => (x :: xs).take CHUNK_SIZE :: chunks100 ((x :: xs).drop CHUNK_SIZE)
termination_by l => l.length
decreasing_by
  simp only [CHUNK_SIZE, List.length_drop, List.length_cons]
  omega

/-- The chunk loop of `upsert_products`: a chunk whose batch post fails is
retried row by row; the first row that still fails aborts with failure. -/
def upsertGo (chunkOk : List Row → Bool) (rowOk : Row → Bool) : List (List Row) → Bool
  | [] => true
  | c :: cs =>
    if chunkOk c then upsertGo chunkOk rowOk cs
    else if c.all rowOk then upsertGo chunkOk rowOk cs
    else false

/-- `upsert_products` of database.py.  The storage responses are passed in as
oracles: `chunkOk` decides whether a batch post succeeds, `rowOk` whether a
single-row post succeeds. -/
def upsert_products (chunkOk : List Row → Bool) (rowOk : Row → Bool) (rows : List Row) : Bool :=
  match rows with
  | [] => true
  | _ => upsertGo chunkOk rowOk (chunks100 (normalize_rows rows))

/-- Response of one paginated read of stored ids: a non-200 status, or a page
of id strings (a row whose id is null or empty is modelled as `""`, which the
truthiness filter of the source skips). -/
inductive ReadResp where
  | fail
  | ok (ids : List String)

/-- The `while True` read loop of `get_existing_product_ids_for_source`,
with explicit fuel.  A failed page returns the ids collected so far; an empty
page or a short page (fewer than 1000 rows) ends the loop. -/
def get_existing_aux (resp : Nat → ReadResp) : Nat → Nat → Finset String → Finset String
  | 0, _, acc => acc
  | fuel + 1, offset, acc =>
    match resp offset with
    | .fail => acc
    | .ok data =>
      if data.isEmpty then acc
      else
        let acc2 := acc ∪ (data.filter fun s => s ≠ "").toFinset
        if data.length < 1000 then acc2
        else get_existing_aux resp fuel (offset + data.length) acc2

/-- `get_existing_product_ids_for_source` of database.py. -/
def get_existing_product_ids_for_source (resp : Nat → ReadResp) (fuel : Nat) : Finset String :=
  get_existing_aux resp fuel 0 ∅

/-- `remove_stale_products` of database.py.  Returns the count of rows
reported deleted together with the trace of delete request batches that were
submitted (Python iterates `list(to_remove)` in unspecified set order; the
model determinizes it by sorting, which submits the same set of ids).
`delOk` is the response oracle of the delete endpoint; a failed batch is
logged, not fatal, and simply not counted. -/
def remove_stale_products (resp : Nat → ReadResp) (fuel : Nat) (delOk : List String → Bool)
    (current_scraped_ids : Finset String) : Nat × List (List String) :=
  let existing := get_existing_product_ids_for_source resp fuel
  let to_remove := existing \ current_scraped_ids
  if to_remove = ∅ then (0, [])
  else
    let id_list := to_remove.sort (· ≤ ·)
    let batches := chunks100 id_list
    (batches.foldl (fun acc b => if delOk b then acc + b.length else acc) 0, batches)

/-! ## scraper.py: source pager -/

/-- The retry loop of `fetch_collection_page`: `oracle page a` is the outcome
of attempt `a` (0-based) on `page` — `some products` for an HTTP success,
`none` for a raised exception.  Returns the products together with the trace
of sleeps taken between attempts, in units of REQUEST_DELAY (the sleep after
failed attempt `a` lasts `a + 1` units: linear backoff).  All attempts
failing yields an empty product list. -/
def fetchAttempts (oracle : Nat → Nat → Option (List Product)) (page : Nat) :
    Nat → Nat → List Product × List Nat
  | _, 0 => ([], [])
  | attempt, remaining + 1 =>
    match oracle page attempt with
    | some products => (products, [])
    | none =>
      if remaining = 0 then ([], [])
      else
        let r := fetchAttempts oracle page (attempt + 1) remaining
        (r.1, (attempt + 1) :: r.2)

/-- `fetch_collection_page` of scraper.py: up to MAX_RETRIES attempts. -/
def fetch_collection_page (oracle : Nat → Nat → Option (List Product)) (page : Nat) :
    List Product × List Nat :=
  fetchAttempts oracle page 0 MAX_RETRIES

/-- The page loop of `stream_all_products`, with explicit fuel: pages are
requested in ascending order starting at `page`; the loop stops at the first
page whose fetch yields no products.  Returns the concatenated products
together with the trace of pages requested. -/
def streamAux (oracle : Nat → Nat → Option (List Product)) : Nat → Nat → List Product × List Nat
  | 0, _ => ([], [])
  | fuel + 1, page =>
    let products := (fetch_collection_page oracle page).1
    if products.isEmpty then ([], [page])
    else
      let r := streamAux oracle fuel (page + 1)
      (products ++ r.1, page :: r.2)

/-- `stream_all_products` of scraper.py, starting at page 1. -/
def stream_all_products (oracle : Nat → Nat → Option (List Product)) (fuel : Nat) :
    List Product × List Nat :=
  streamAux oracle fuel 1

/-! ## main.py: the orchestrator -/

/-- All external collaborators of one run, as response oracles. -/
structure Env where
  key_present : Bool
  stripHtml : String → String
  imgEmb : String → Option (List ℚ)
  infoEmb : Record → Option (List ℚ)
  chunkOk : List Row → Bool
  rowOk : Row → Bool
  readResp : Nat → ReadResp
  readFuel : Nat
  delOk : List String → Bool

def limitReached (limit : Option Nat) (total : Nat) : Bool :=
  match limit with
  | none => false
  | some l => decide (total ≥ l)

/-- The buffering loop of `run` in main.py: normalize each listing, skip it
when it has no primary image, otherwise generate both embeddings (soft:
either may be absent), set the brand, and buffer the prepared row.  Returns
the buffered rows and the processed count. -/
def buildRows (env : Env) (limit : Option Nat) : List Product → Nat → List Row × Nat
  | [], total => ([], total)
  | p :: ps, total =>
    if limitReached limit total then ([], total)
    else
      let record := product_to_record env.stripHtml p
      if record.image_url = "" then buildRows env limit ps (total + 1)
      else
        let image_emb := env.imgEmb record.image_url
        let record2 := { record with brand := some BRAND }
        let info_emb := env.infoEmb record2
        let row := prepare_row record2 image_emb info_emb
        let rest := buildRows env limit ps (total + 1)
        (row :: rest.1, rest.2)

/-- The id of a prepared row (`r["id"]`), always a string by construction. -/
def rowId (r : Row) : String :=
  match rget r "id" with
  | .str s => s
  | _ => ""

/-- Observable outcome of one `run`: the exit status (`some 1` models
`sys.exit(1)`, `none` a normal return), the current-identity set passed to
stale reconciliation when reconciliation was invoked, the trace of delete
request batches, and the reported removed count. -/
structure RunOutcome where
  exit : Option Nat
  recon : Option (Finset String)
  deleteBatches : List (List String)
  removed : Nat

/-- `run` of main.py. -/
def run (env : Env) (dry_run : Bool) (limit : Option Nat) (stream : List Product) : RunOutcome :=
  if env.key_present = false ∧ dry_run = false then
    ⟨some 1, none, [], 0⟩
  else
    let rows := (buildRows env limit stream 0).1
    if dry_run then ⟨none, none, [], 0⟩
    else if rows.isEmpty then
      let rs := remove_stale_products env.readResp env.readFuel env.delOk ∅
      ⟨none, some ∅, rs.2, rs.1⟩
    else if upsert_products env.chunkOk env.rowOk rows = false then
      ⟨some 1, none, [], 0⟩
    else
      let current_ids := (rows.map rowId).toFinset
      let rs := remove_stale_products env.readResp env.readFuel env.delOk current_ids
      ⟨none, some current_ids, rs.2, rs.1⟩

/-! ## Helper lemmas -/

theorem chunks100_flatten {α : Type} (l : List α) : (chunks100 l).flatten = l := by
  induction l using chunks100.induct with
  | case1 => simp [chunks100]
  | case2 x xs ih =>
    rw [chunks100]
    simp only [List.flatten_cons, ih, List.take_append_drop]

theorem chunks100_length_le {α : Type} (l : List α) :
    ∀ c ∈ chunks100 l, c.length ≤ 100 ∧ c ≠ [] := by
  induction l using chunks100.induct with
  | case1 => simp [chunks100]
  | case2 x xs ih =>
    rw [chunks100]
    intro c hc
    rcases List.mem_cons.mp hc with h | h
    · subst h
      refine ⟨?_, by simp [CHUNK_SIZE]⟩
      simp [CHUNK_SIZE]
    · exact ih c h

theorem chunks100_nil_iff {α : Type} (l : List α) : chunks100 l = [] ↔ l = [] := by
  cases l with
  | nil => simp [chunks100]
  | cons x xs => simp [chunks100]

theorem upsertGo_eq_false_iff (chunkOk : List Row → Bool) (rowOk : Row → Bool)
    (cs : List (List Row)) :
    upsertGo chunkOk rowOk cs = false ↔
      ∃ c ∈ cs, chunkOk c = false ∧ ∃ r ∈ c, rowOk r = false := by
  induction cs with
  | nil => simp [upsertGo]
  | cons c cs ih =>
    by_cases hc : chunkOk c
    · simp [upsertGo, hc, ih]
    · by_cases hr : c.all rowOk
      · rw [upsertGo, if_neg (by simp [hc]), if_pos hr, ih]
        rw [List.all_eq_true] at hr
        constructor
        · rintro ⟨d, hd, hdc, r, hr2, hr3⟩
          exact ⟨d, List.mem_cons_of_mem _ hd, hdc, r, hr2, hr3⟩
        · rintro ⟨d, hd, hdc, r, hr2, hr3⟩
          rcases List.mem_cons.mp hd with rfl | hd
          · exact absurd (hr r hr2) (by simp [hr3])
          · exact ⟨d, hd, hdc, r, hr2, hr3⟩
      · rw [upsertGo, if_neg (by simp [hc]), if_neg hr]
        simp only [eq_self_iff_true, true_iff]
        rw [List.all_eq_true] at hr
        push_neg at hr
        obtain ⟨r, hr2, hr3⟩ := hr
        exact ⟨c, List.mem_cons_self c cs, Bool.eq_false_iff.mpr hc,
          r, hr2, Bool.eq_false_iff.mpr hr3⟩

theorem digitChar_isDigit (n : Nat) : (digitChar n).isDigit = true := by
  match n with
  | 0 | 1 | 2 | 3 | 4 | 5 | 6 | 7 | 8 | 9 => decide
  | k + 10 =>
    have h : ([ '0', '1', '2', '3', '4', '5', '6', '7', '8', '9'] : List Char).length ≤ k + 10 := by
      simp
    unfold digitChar
    rw [List.getD_eq_default _ _ h]
    decide

theorem natDigitsAux_spec (fuel : Nat) : ∀ (n : Nat) (acc : List Char),
    ∃ ds, natDigitsAux fuel n acc = ds ++ acc ∧ ∀ c ∈ ds, c.isDigit = true := by
  induction fuel with
  | zero => intro n acc; exact ⟨[], rfl, by simp⟩
  | succ fuel ih =>
    intro n acc
    by_cases hn : n = 0
    · exact ⟨[], by simp [natDigitsAux, hn], by simp⟩
    · obtain ⟨ds, hds, hdig⟩ := ih (n / 10) (digitChar (n % 10) :: acc)
      refine ⟨ds ++ [digitChar (n % 10)], ?_, ?_⟩
      · simp [natDigitsAux, hn, hds]
      · intro c hc
        rcases List.mem_append.mp hc with h | h
        · exact hdig c h
        · rcases List.mem_singleton.mp h with rfl
          exact digitChar_isDigit _

theorem natDigits_all_digits (n : Nat) : ∀ c ∈ natDigits n, c.isDigit = true := by
  unfold natDigits
  by_cases hn : n = 0
  · simp [hn]
  · rw [if_neg hn]
    obtain ⟨ds, hds, hdig⟩ := natDigitsAux_spec n n []
    rw [hds]
    simp only [List.append_nil]
    exact hdig

theorem natDigits_ne_nil (n : Nat) : natDigits n ≠ [] := by
  unfold natDigits
  by_cases hn : n = 0
  · simp [hn]
  · rw [if_neg hn]
    obtain ⟨fuel, rfl⟩ : ∃ f, n = f + 1 := ⟨n - 1, by omega⟩
    rw [natDigitsAux, if_neg hn]
    obtain ⟨ds, hds, _⟩ := natDigitsAux_spec fuel ((fuel + 1) / 10) [digitChar ((fuel + 1) % 10)]
    rw [hds]
    simp

theorem takeWhile_all_append {α : Type} (p : α → Bool) (xs : List α) (y : α) (ys : List α)
    (hx : ∀ x ∈ xs, p x = true) (hy : p y = false) :
    (xs ++ y :: ys).takeWhile p = xs ∧ (xs ++ y :: ys).dropWhile p = y :: ys := by
  induction xs with
  | nil => simp [List.takeWhile_cons, List.dropWhile_cons, hy]
  | cons x xs ih =>
    have hpx : p x = true := hx x (List.mem_cons_self x xs)
    obtain ⟨ht, hd⟩ := ih fun a ha => hx a (List.mem_cons_of_mem _ ha)
    constructor
    · simp [List.takeWhile_cons, hpx, ht]
    · simp [List.dropWhile_cons, hpx, hd]

theorem isDigit_ne_hyphen {c : Char} (h : c.isDigit = true) : c ≠ '-' := by
  intro hc
  subst hc
  simp at h

/-- Any list of the shape optional sign, nonempty digits, dot, two digits,
`EUR` passes the money-shape check. -/
theorem moneyChars_shape (sign ds : List Char) (hsign : sign = [] ∨ sign = [ '-'])
    (hne : ds ≠ []) (hdig : ∀ c ∈ ds, c.isDigit = true)
    (d1 d2 : Char) (h1 : d1.isDigit = true) (h2 : d2.isDigit = true) :
    moneyChars (sign ++ ds ++ [ '.', d1, d2] ++ [ 'E', 'U', 'R']) = true := by
  obtain ⟨c0, ds', rfl⟩ : ∃ c0 ds', ds = c0 :: ds' := by
    cases h : ds with
    | nil => exact absurd h hne
    | cons a l => exact ⟨a, l, rfl⟩
  have hc0 : c0.isDigit = true := hdig c0 (List.mem_cons_self _ _)
  have hdot : ('.' : Char).isDigit = false := by decide
  have hspan := takeWhile_all_append Char.isDigit (c0 :: ds') '.' [d1, d2, 'E', 'U', 'R'] hdig hdot
  have hcore : moneyCore ((c0 :: ds') ++ '.' :: [d1, d2, 'E', 'U', 'R']) = true := by
    unfold moneyCore
    rw [hspan.1, hspan.2]
    simp [h1, h2]
  have hflat : sign ++ (c0 :: ds') ++ [ '.', d1, d2] ++ [ 'E', 'U', 'R']
      = sign ++ ((c0 :: ds') ++ '.' :: [d1, d2, 'E', 'U', 'R']) := by
    simp
  rw [hflat]
  rcases hsign with rfl | rfl
  · rw [List.nil_append]
    unfold moneyChars
    rw [List.cons_append, List.head?_cons]
    rw [if_neg (by simp [isDigit_ne_hyphen hc0]), ← List.cons_append]
    exact hcore
  · unfold moneyChars
    rw [List.cons_append, List.head?_cons, if_pos rfl, List.tail_cons]
    exact hcore

/-- The `:.2f` output of `fmt2Chars`, with the currency code appended, always
has the money shape: optional sign, digits, dot, two digits, `EUR`. -/
theorem moneyChars_fmt2 (q : ℚ) : moneyChars (fmt2Chars q ++ [ 'E', 'U', 'R']) = true := by
  unfold fmt2Chars
  generalize round (q * 100) = n
  have h := moneyChars_shape (if n < 0 then [ '-'] else []) (natDigits (n.natAbs / 100))
    (by by_cases hneg : n < 0 <;> simp [hneg])
    (natDigits_ne_nil _) (natDigits_all_digits _)
    (digitChar (n.natAbs % 100 / 10)) (digitChar (n.natAbs % 10))
    (digitChar_isDigit _) (digitChar_isDigit _)
  simpa using h

/-- Boolean substring test agrees with the infix relation. -/
theorem strMem_iff (needle hay : String) :
    strMem needle hay = true ↔ needle.data <:+: hay.data := by
  unfold strMem
  rw [List.any_eq_true]
  constructor
  · rintro ⟨t, ht, hpre⟩
    rw [List.mem_tails] at ht
    rw [ List.isPrefixOf_iff_prefix] at hpre
    exact List.infix_iff_prefix_suffix.mpr ⟨t, hpre, ht⟩
  · intro h
    obtain ⟨t, hpre, hsuf⟩ := List.infix_iff_prefix_suffix.mp h
    have hb : List.isPrefixOf needle.data t = true := by
      rw [ List.isPrefixOf_iff_prefix]
      exact hpre
    exact ⟨t, (List.mem_tails _ _).mpr hsuf, hb⟩

/-- Core behaviour of `remove_stale_products`: the ids submitted for deletion
are exactly the stored ids minus the current ids, in nonempty chunks of at
most 100, never touching a current id; an empty difference issues nothing and
reports 0. -/
theorem remove_stale_spec (resp : Nat → ReadResp) (fuel : Nat) (delOk : List String → Bool)
    (current : Finset String) :
    ((remove_stale_products resp fuel delOk current).2.flatten.toFinset
        = get_existing_product_ids_for_source resp fuel \ current)
    ∧ (∀ b ∈ (remove_stale_products resp fuel delOk current).2, b.length ≤ 100 ∧ b ≠ [])
    ∧ (∀ b ∈ (remove_stale_products resp fuel delOk current).2, ∀ x ∈ b, x ∉ current)
    ∧ (get_existing_product_ids_for_source resp fuel \ current = ∅ →
        remove_stale_products resp fuel delOk current = (0, [])) := by
  unfold remove_stale_products
  by_cases h : get_existing_product_ids_for_source resp fuel \ current = ∅
  · rw [if_pos h]
    refine ⟨?_, by simp, by simp, fun _ => rfl⟩
    simp [h]
  · rw [if_neg h]
    have hflat := chunks100_flatten
      ((get_existing_product_ids_for_source resp fuel \ current).sort (· ≤ ·))
    refine ⟨?_, ?_, ?_, fun hc => absurd hc h⟩
    · rw [hflat]
      exact Finset.sort_toFinset _ _
    · intro b hb
      exact chunks100_length_le _ b hb
    · intro b hb x hx
      have hxf : x ∈ (get_existing_product_ids_for_source resp fuel \ current).sort (· ≤ ·) := by
        rw [← hflat]
        exact List.mem_flatten.mpr ⟨b, hb, hx⟩
      rw [Finset.mem_sort] at hxf
      exact (Finset.mem_sdiff.mp hxf).2

/-- C3: the Stale Reconciler deletes exactly `existing − current`, in chunks
of at most 100, never submits a current identity, and an empty difference
returns 0 with no delete request. -/
theorem claim_C3 (resp : Nat → ReadResp) (fuel : Nat) (delOk : List String → Bool)
    (current existing : Finset String)
    (hex : get_existing_product_ids_for_source resp fuel = existing) :
    ((remove_stale_products resp fuel delOk current).2.flatten.toFinset = existing \ current)
    ∧ (∀ b ∈ (remove_stale_products resp fuel delOk current).2, b.length ≤ 100 ∧ b ≠ [])
    ∧ (∀ b ∈ (remove_stale_products resp fuel delOk current).2, ∀ x ∈ b, x ∉ current)
    ∧ (existing \ current = ∅ → remove_stale_products resp fuel delOk current = (0, [])) := by
  subst hex
  exact remove_stale_spec resp fuel delOk current

/-- Witness for C3, mirroring the spec's example: `existing = {a,b,c}`,
`current = {b,c,d}` deletes exactly `{a}`. -/
theorem claim_C3_witness :
    get_existing_product_ids_for_source
        (fun o => if o = 0 then ReadResp.ok ["a", "b", "c"] else ReadResp.fail) 1
      = ({"a", "b", "c"} : Finset String)
    ∧ ((remove_stale_products
          (fun o => if o = 0 then ReadResp.ok ["a", "b", "c"] else ReadResp.fail) 1
          (fun _ => true) {"b", "c", "d"}).2.flatten.toFinset
        = ({"a", "b", "c"} : Finset String) \ {"b", "c", "d"}) :=
  ⟨by decide,
    (claim_C3 (fun o => if o = 0 then ReadResp.ok ["a", "b", "c"] else ReadResp.fail) 1
      (fun _ => true) {"b", "c", "d"} {"a", "b", "c"} (by decide)).1⟩

/-- The read loop over any run of full (length-1000) pages ending in a failed
page: the loop walks the pages at offsets 0, 1000, 2000, …, collects their
truthy ids, and the failure returns what was collected so far. -/
theorem get_existing_aux_full_pages (resp : Nat → ReadResp) :
    ∀ (pages : List (List String)) (off : Nat) (acc : Finset String) (fuel : Nat),
      (∀ i (hi : i < pages.length), resp (off + 1000 * i) = ReadResp.ok (pages.get ⟨i, hi⟩)) →
      (∀ pg ∈ pages, pg.length = 1000) →
      resp (off + 1000 * pages.length) = ReadResp.fail →
      pages.length + 1 ≤ fuel →
      get_existing_aux resp fuel off acc
        = acc ∪ (pages.flatten.filter fun s => s ≠ "").toFinset := by
  intro pages
  induction pages with
  | nil =>
    intro off acc fuel hpages hfull hfail hfuel
    obtain ⟨f, rfl⟩ : ∃ f, fuel = f + 1 := ⟨fuel - 1, by omega⟩
    have h0 : resp off = ReadResp.fail := by
      have hx := hfail
      rwa [show off + 1000 * ([] : List (List String)).length = off by simp] at hx
    rw [get_existing_aux, h0]
    simp
  | cons pg pgs ih =>
    intro off acc fuel hpages hfull hfail hfuel
    obtain ⟨f, rfl⟩ : ∃ f, fuel = f + 1 := ⟨fuel - 1, by omega⟩
    have h0 : resp off = ReadResp.ok pg := by
      have hx := hpages 0 (by simp)
      rwa [show off + 1000 * 0 = off by omega] at hx
    have hpglen : pg.length = 1000 := hfull pg (List.mem_cons_self _ _)
    have hne : pg.isEmpty = false := by
      cases pg with
      | nil => simp at hpglen
      | cons a as => rfl
    have h1 : ∀ i (hi : i < pgs.length),
        resp ((off + 1000) + 1000 * i) = ReadResp.ok (pgs.get ⟨i, hi⟩) := by
      intro i hi
      have hx := hpages (i + 1) (by simp; omega)
      rwa [show off + 1000 * (i + 1) = (off + 1000) + 1000 * i by ring] at hx
    have h2 : ∀ q ∈ pgs, q.length = 1000 := fun q hq => hfull q (List.mem_cons_of_mem _ hq)
    have h3 : resp ((off + 1000) + 1000 * pgs.length) = ReadResp.fail := by
      have hx := hfail
      rwa [show off + 1000 * (pg :: pgs).length = (off + 1000) + 1000 * pgs.length by
        rw [List.length_cons]; ring] at hx
    have hfuel2 : pgs.length + 1 ≤ f := by
      rw [List.length_cons] at hfuel
      omega
    have hih := ih (off + 1000) (acc ∪ (pg.filter fun s => s ≠ "").toFinset) f h1 h2 h3 hfuel2
    rw [get_existing_aux, h0]
    simp only [hne, Bool.false_eq_true, if_false, hpglen]
    rw [if_neg (by omega), hih]
    rw [List.flatten_cons, List.filter_append, List.toFinset_append, Finset.union_assoc]

/-- C10: a paginated read of the stored ids that fails partway — after any
number of full pages — returns the partial set collected so far instead of
signalling an error; reconciliation against this partial set deletes only a
subset of the true stale ids, never a current id, and the run still exits
normally. -/
theorem claim_C10 (pages : List (List String)) (resp : Nat → ReadResp) (fuel : Nat)
    (delOk : List String → Bool) (current : Finset String)
    (hpages : ∀ i (hi : i < pages.length), resp (1000 * i) = ReadResp.ok (pages.get ⟨i, hi⟩))
    (hfull : ∀ pg ∈ pages, pg.length = 1000)
    (hfail : resp (1000 * pages.length) = ReadResp.fail)
    (hfuel : pages.length + 1 ≤ fuel) :
    get_existing_product_ids_for_source resp fuel
      = (pages.flatten.filter fun s => s ≠ "").toFinset
    ∧ (∀ trueExisting : Finset String,
        (pages.flatten.filter fun s => s ≠ "").toFinset ⊆ trueExisting →
        (remove_stale_products resp fuel delOk current).2.flatten.toFinset
          ⊆ trueExisting \ current)
    ∧ (∀ b ∈ (remove_stale_products resp fuel delOk current).2, ∀ x ∈ b, x ∉ current)
    ∧ (∀ (env : Env) (limit : Option Nat) (stream : List Product),
        env.key_present = true → env.readResp = resp → env.readFuel = fuel →
        upsert_products env.chunkOk env.rowOk (buildRows env limit stream 0).1 = true →
        (run env false limit stream).exit = none ∧ (run env false limit stream).recon ≠ none) := by
  have hget : get_existing_product_ids_for_source resp fuel
      = (pages.flatten.filter fun s => s ≠ "").toFinset := by
    unfold get_existing_product_ids_for_source
    have hx := get_existing_aux_full_pages resp pages 0 ∅ fuel
      (by intro i hi; rw [Nat.zero_add]; exact hpages i hi) hfull
      (by rw [Nat.zero_add]; exact hfail) hfuel
    rw [hx, Finset.empty_union]
  refine ⟨hget, ?_, (remove_stale_spec resp fuel delOk current).2.2.1, ?_⟩
  · intro trueExisting hsub
    rw [(remove_stale_spec resp fuel delOk current).1, hget]
    exact Finset.sdiff_subset_sdiff hsub (le_refl current)
  · intro env limit stream hkey hresp hrfuel hupsert
    unfold run
    rw [if_neg (by simp [hkey])]
    simp only [Bool.false_eq_true, if_false]
    by_cases hrows : ((buildRows env limit stream 0).1).isEmpty
    · rw [if_pos hrows]
      exact ⟨rfl, by simp⟩
    · rw [if_neg hrows, if_neg (by simp [hupsert])]
      exact ⟨rfl, by simp⟩

/-- Witness for C10: one full page of 1000 ids followed by a failing read. -/
theorem claim_C10_witness :
    (((List.range 1000).map fun n => toString n).length = 1000)
    ∧ ((run
          ⟨true, id, fun _ => none, fun _ => none, fun _ => true, fun _ => true,
            fun o => if o = 0 then ReadResp.ok ((List.range 1000).map fun n => toString n)
              else ReadResp.fail, 2, fun _ => true⟩
          false none []).exit = none
        ∧ (run
            ⟨true, id, fun _ => none, fun _ => none, fun _ => true, fun _ => true,
              fun o => if o = 0 then ReadResp.ok ((List.range 1000).map fun n => toString n)
                else ReadResp.fail, 2, fun _ => true⟩
            false none []).recon ≠ none) :=
  ⟨by simp,
    (claim_C10 [(List.range 1000).map fun n => toString n]
        (fun o => if o = 0 then ReadResp.ok ((List.range 1000).map fun n => toString n)
          else ReadResp.fail)
        2 (fun _ => true) ∅
        (by
          intro i hi
          have hi0 : i = 0 := by
            simp at hi
            omega
          subst hi0
          rfl)
        (by
          intro pg hpg
          rw [List.mem_singleton] at hpg
          subst hpg
          simp)
        (by simp) (by simp)).2.2.2
      ⟨true, id, fun _ => none, fun _ => none, fun _ => true, fun _ => true,
        fun o => if o = 0 then ReadResp.ok ((List.range 1000).map fun n => toString n)
          else ReadResp.fail, 2, fun _ => true⟩
      none [] rfl rfl rfl rfl⟩

/-- If every listing of the stream lacks a primary image, no row is buffered. -/
theorem buildRows_no_image (env : Env) (limit : Option Nat) (stream : List Product)
    (h : ∀ p ∈ stream, (product_to_record env.stripHtml p).image_url = "") :
    ∀ total, (buildRows env limit stream total).1 = [] := by
  induction stream with
  | nil => intro total; rfl
  | cons p ps ih =>
    intro total
    rw [buildRows]
    cases hl : limitReached limit total with
    | true => simp [hl]
    | false =>
      rw [if_neg (by simp [hl])]
      rw [if_pos (h p (List.mem_cons_self p ps))]
      exact ih (fun q hq => h q (List.mem_cons_of_mem _ hq)) (total + 1)

/-- C1: a non-dry-run pass that buffered zero rows still invokes stale
reconciliation with an empty current set, so every stored identity is
submitted for deletion; the run exits normally. -/
theorem claim_C1 (env : Env) (limit : Option Nat) (stream : List Product)
    (existing : Finset String)
    (hkey : env.key_present = true)
    (hnoimg : ∀ p ∈ stream, (product_to_record env.stripHtml p).image_url = "")
    (hex : get_existing_product_ids_for_source env.readResp env.readFuel = existing) :
    (run env false limit stream).exit = none
    ∧ (run env false limit stream).recon = some ∅
    ∧ (run env false limit stream).deleteBatches.flatten.toFinset = existing := by
  have hrows := buildRows_no_image env limit stream hnoimg 0
  unfold run
  rw [if_neg (by simp [hkey])]
  simp only [Bool.false_eq_true, if_false, hrows, List.isEmpty_nil, if_true]
  refine ⟨trivial, trivial, ?_⟩
  rw [(remove_stale_spec env.readResp env.readFuel env.delOk ∅).1, hex, Finset.sdiff_empty]

/-- Witness for C1: an empty source stream and two stored identities; both
stored identities are submitted for deletion. -/
theorem claim_C1_witness :
    ((run
        ⟨true, id, fun _ => none, fun _ => none, fun _ => true, fun _ => true,
          fun o => if o = 0 then ReadResp.ok ["x", "y"] else ReadResp.fail, 1,
          fun _ => true⟩
        false none []).exit = none)
    ∧ ((run
        ⟨true, id, fun _ => none, fun _ => none, fun _ => true, fun _ => true,
          fun o => if o = 0 then ReadResp.ok ["x", "y"] else ReadResp.fail, 1,
          fun _ => true⟩
        false none []).recon = some ∅)
    ∧ ((run
        ⟨true, id, fun _ => none, fun _ => none, fun _ => true, fun _ => true,
          fun o => if o = 0 then ReadResp.ok ["x", "y"] else ReadResp.fail, 1,
          fun _ => true⟩
        false none []).deleteBatches.flatten.toFinset = ({"x", "y"} : Finset String)) :=
  claim_C1
    ⟨true, id, fun _ => none, fun _ => none, fun _ => true, fun _ => true,
      fun o => if o = 0 then ReadResp.ok ["x", "y"] else ReadResp.fail, 1,
      fun _ => true⟩
    none [] {"x", "y"} rfl (by simp) (by decide)

/-- C2: if some chunk's batch upsert is rejected and some row of that chunk
still fails in the row-by-row isolation retry, the upsert reports failure,
the run exits with status 1, and stale reconciliation is never invoked (no
delete request is issued). -/
theorem claim_C2 (env : Env) (limit : Option Nat) (stream : List Product)
    (hkey : env.key_present = true)
    (hfail : ∃ c ∈ chunks100 (normalize_rows (buildRows env limit stream 0).1),
        env.chunkOk c = false ∧ ∃ r ∈ c, env.rowOk r = false) :
    upsert_products env.chunkOk env.rowOk (buildRows env limit stream 0).1 = false
    ∧ run env false limit stream = ⟨some 1, none, [], 0⟩ := by
  have hrows : (buildRows env limit stream 0).1 ≠ [] := by
    intro h
    obtain ⟨c, hc, _⟩ := hfail
    rw [h] at hc
    simp [normalize_rows, chunks100] at hc
  have hup : upsert_products env.chunkOk env.rowOk (buildRows env limit stream 0).1 = false := by
    obtain ⟨r0, rs, hr⟩ : ∃ r0 rs, (buildRows env limit stream 0).1 = r0 :: rs := by
      cases h : (buildRows env limit stream 0).1 with
      | nil => exact absurd h hrows
      | cons a l => exact ⟨a, l, rfl⟩
    rw [hr] at hfail ⊢
    unfold upsert_products
    rw [upsertGo_eq_false_iff]
    exact hfail
  refine ⟨hup, ?_⟩
  unfold run
  rw [if_neg (by simp [hkey])]
  simp only [Bool.false_eq_true, if_false]
  rw [if_neg (by simp [List.isEmpty_iff, hrows]), if_pos hup]

theorem normalize_rows_ne_nil (rows : List Row) (h : rows ≠ []) : normalize_rows rows ≠ [] := by
  cases rows with
  | nil => exact absurd rfl h
  | cons r rs => simp [normalize_rows]

theorem chunks100_first {α : Type} (l : List α) (h : l ≠ []) :
    ∃ c ∈ chunks100 l, ∃ r, r ∈ c := by
  cases h2 : chunks100 l with
  | nil => exact absurd ((chunks100_nil_iff l).mp h2) h
  | cons c cs =>
    have hc : c ∈ chunks100 l := by
      rw [h2]
      exact List.mem_cons_self c cs
    have hne := (chunks100_length_le l c hc).2
    exact ⟨c, List.mem_cons_self c cs, List.exists_mem_of_ne_nil c hne⟩

def envC2 : Env :=
  ⟨true, id, fun _ => none, fun _ => none, fun _ => false, fun _ => false,
    fun _ => ReadResp.fail, 0, fun _ => true⟩

def prodC2 : Product := { images := some [{ src := some "img" }] }

/-- Witness for C2: one listing with an image, a storage endpoint that
rejects every batch and every single row; the run exits with status 1 and no
delete request is issued. -/
theorem claim_C2_witness :
    upsert_products envC2.chunkOk envC2.rowOk (buildRows envC2 none [prodC2] 0).1 = false
    ∧ run envC2 false none [prodC2] = ⟨some 1, none, [], 0⟩ := by
  have hne : (buildRows envC2 none [prodC2] 0).1 ≠ [] := by decide
  obtain ⟨c, hc, r, hr⟩ :=
    chunks100_first (normalize_rows (buildRows envC2 none [prodC2] 0).1)
      (normalize_rows_ne_nil _ hne)
  exact claim_C2 envC2 none [prodC2] rfl ⟨c, hc, rfl, r, hr, rfl⟩

theorem lookup_map_key {β : Type} (ks : List String) (f : String → β) (k : String) :
    (ks.map fun x => (x, f x)).lookup k = if k ∈ ks then some (f k) else none := by
  induction ks with
  | nil => simp [List.lookup]
  | cons a as ih =>
    by_cases hk : k = a
    · subst hk
      simp [List.lookup]
    · have hba : (k == a) = false := by simp [hk]
      simp [List.lookup, hba, ih, List.mem_cons, hk]

theorem rget_normalizeRow (ks : List String) (r : Row) (k : String) :
    rget (normalizeRow ks r) k = if k ∈ ks then rget r k else Val.null := by
  have h1 : rget (normalizeRow ks r) k
      = ((ks.map fun x => (x, rget r x)).lookup k).getD Val.null := rfl
  rw [h1, lookup_map_key]
  by_cases hk : k ∈ ks
  · rw [if_pos hk, if_pos hk, Option.getD_some]
  · rw [if_neg hk, if_neg hk, Option.getD_none]

theorem rowKeys_normalizeRow (ks : List String) (r : Row) : rowKeys (normalizeRow ks r) = ks := by
  induction ks with
  | nil => rfl
  | cons a as ih =>
    show a :: rowKeys (normalizeRow as r) = a :: as
    rw [ih]

/-- A row prepared without an image embedding carries no image_embedding key,
whatever the info embedding: the lookup falls back to null. -/
theorem prepare_row_image_absent (record : Record) (info_embedding : Option (List ℚ)) :
    rget (prepare_row record none info_embedding) "image_embedding" = Val.null := by
  cases info_embedding <;> rfl

/-- A row prepared without an info embedding carries no info_embedding key,
whatever the image embedding: the lookup falls back to null. -/
theorem prepare_row_info_absent (record : Record) (image_embedding : Option (List ℚ)) :
    rget (prepare_row record image_embedding none) "info_embedding" = Val.null := by
  cases image_embedding <;> rfl

/-- The row of a listing with a primary image is buffered by the loop. -/
theorem mem_buildRows (env : Env) (stream : List Product) (p : Product)
    (hp : p ∈ stream)
    (himg : (product_to_record env.stripHtml p).image_url ≠ "") :
    ∀ total,
      prepare_row { product_to_record env.stripHtml p with brand := some BRAND }
          (env.imgEmb (product_to_record env.stripHtml p).image_url)
          (env.infoEmb { product_to_record env.stripHtml p with brand := some BRAND })
        ∈ (buildRows env none stream total).1 := by
  induction stream with
  | nil => cases hp
  | cons q ps ih =>
    intro total
    rw [buildRows]
    rw [if_neg (by simp [limitReached])]
    rcases List.mem_cons.mp hp with rfl | hp2
    · rw [if_neg himg]
      exact List.mem_cons_self _ _
    · by_cases hq : (product_to_record env.stripHtml q).image_url = ""
      · rw [if_pos hq]
        exact ih hp2 (total + 1)
      · rw [if_neg hq]
        exact List.mem_cons_of_mem _ (ih hp2 (total + 1))

theorem mem_normalize_rows (rows : List Row) (r : Row) (hr : r ∈ rows) :
    normalizeRow (allKeys rows) r ∈ normalize_rows rows := by
  cases rows with
  | nil => cases hr
  | cons a as =>
    unfold normalize_rows
    exact List.mem_map_of_mem _ hr

/-- C9: an item whose image or text embedding generation yields no vector is
still buffered and included in the upsert batch with whatever embeddings were
produced; after batch normalization every row carries the identical key list,
and each absent embedding field of the item's row reads as null. -/
theorem claim_C9 (env : Env) (stream : List Product) (p : Product)
    (hp : p ∈ stream)
    (himg : (product_to_record env.stripHtml p).image_url ≠ "")
    (habs : env.imgEmb (product_to_record env.stripHtml p).image_url = none
      ∨ env.infoEmb { product_to_record env.stripHtml p with brand := some BRAND } = none) :
    prepare_row { product_to_record env.stripHtml p with brand := some BRAND }
        (env.imgEmb (product_to_record env.stripHtml p).image_url)
        (env.infoEmb { product_to_record env.stripHtml p with brand := some BRAND })
      ∈ (buildRows env none stream 0).1
    ∧ (∀ r ∈ normalize_rows (buildRows env none stream 0).1,
        rowKeys r = allKeys (buildRows env none stream 0).1)
    ∧ normalizeRow (allKeys (buildRows env none stream 0).1)
          (prepare_row { product_to_record env.stripHtml p with brand := some BRAND }
            (env.imgEmb (product_to_record env.stripHtml p).image_url)
            (env.infoEmb { product_to_record env.stripHtml p with brand := some BRAND }))
        ∈ normalize_rows (buildRows env none stream 0).1
    ∧ (env.imgEmb (product_to_record env.stripHtml p).image_url = none →
        rget (normalizeRow (allKeys (buildRows env none stream 0).1)
            (prepare_row { product_to_record env.stripHtml p with brand := some BRAND }
              (env.imgEmb (product_to_record env.stripHtml p).image_url)
              (env.infoEmb { product_to_record env.stripHtml p with brand := some BRAND })))
          "image_embedding" = Val.null)
    ∧ (env.infoEmb { product_to_record env.stripHtml p with brand := some BRAND } = none →
        rget (normalizeRow (allKeys (buildRows env none stream 0).1)
            (prepare_row { product_to_record env.stripHtml p with brand := some BRAND }
              (env.imgEmb (product_to_record env.stripHtml p).image_url)
              (env.infoEmb { product_to_record env.stripHtml p with brand := some BRAND })))
          "info_embedding" = Val.null) := by
  have hmem := mem_buildRows env stream p hp himg 0
  refine ⟨hmem, ?_, mem_normalize_rows _ _ hmem, ?_, ?_⟩
  · intro r hr
    cases h : (buildRows env none stream 0).1 with
    | nil =>
      rw [h] at hr
      cases hr
    | cons a as =>
      rw [h] at hr
      unfold normalize_rows at hr
      obtain ⟨r0, _, rfl⟩ := List.mem_map.mp hr
      exact rowKeys_normalizeRow _ _
  · intro hie
    rw [rget_normalizeRow]
    by_cases h : "image_embedding" ∈ allKeys (buildRows env none stream 0).1
    · rw [if_pos h, hie]
      exact prepare_row_image_absent _ _
    · rw [if_neg h]
  · intro hfe
    rw [rget_normalizeRow]
    by_cases h : "info_embedding" ∈ allKeys (buildRows env none stream 0).1
    · rw [if_pos h, hfe]
      exact prepare_row_info_absent _ _
    · rw [if_neg h]

/-- Environment of the C9 witness: the image embedding yields nothing, the
info embedding yields a vector — the mixed one-absent case. -/
def envC9 : Env :=
  ⟨true, id, fun _ => none, fun _ => some [(1 : ℚ)], fun _ => true, fun _ => true,
    fun _ => ReadResp.fail, 0, fun _ => true⟩

def prodC9 : Product := { images := some [{ src := some "img" }] }

/-- Witness for C9: one listing with an image whose image embedding is absent
while its info embedding is present; its row is still buffered and, after
normalization, its image_embedding field reads as null. -/
theorem claim_C9_witness :
    prepare_row { product_to_record envC9.stripHtml prodC9 with brand := some BRAND }
        (envC9.imgEmb (product_to_record envC9.stripHtml prodC9).image_url)
        (envC9.infoEmb { product_to_record envC9.stripHtml prodC9 with brand := some BRAND })
      ∈ (buildRows envC9 none [prodC9] 0).1
    ∧ rget (normalizeRow (allKeys (buildRows envC9 none [prodC9] 0).1)
          (prepare_row { product_to_record envC9.stripHtml prodC9 with brand := some BRAND }
            (envC9.imgEmb (product_to_record envC9.stripHtml prodC9).image_url)
            (envC9.infoEmb
              { product_to_record envC9.stripHtml prodC9 with brand := some BRAND })))
        "image_embedding" = Val.null :=
  ⟨(claim_C9 envC9 [prodC9] prodC9 (List.mem_cons_self _ _) (by decide) (Or.inl rfl)).1,
    (claim_C9 envC9 [prodC9] prodC9 (List.mem_cons_self _ _) (by decide)
      (Or.inl rfl)).2.2.2.1 rfl⟩

/-- Counterexample to C7 as stated: a listing whose only women marker sits in
a tag is classified into the default group "man", although the claim says any
of the three fields containing a marker of the non-default group yields
"woman". -/
theorem claim_C7_counterexample :
    infer_gender { tags := some ["women"] } = "man"
    ∧ (∃ t ∈ ({ tags := some ["women"] } : Product).tags.getD [],
        strMem "WOMEN" (pyUpper t) = true) := by
  refine ⟨by decide, "women", by decide, by decide⟩

/-- C7 amended: gender is "woman" exactly when the uppercased type or title
contains GIRLS or WOMEN as a substring, or some uppercased tag contains GIRL;
otherwise it is the default "man".  A girl marker appearing only in a tag
suffices; a women marker is looked for only in the type and the title, not in
the tags, and a bare "girl" only in the tags. -/
theorem claim_C7 (p : Product) :
    (infer_gender p = "woman" ∨ infer_gender p = "man")
    ∧ (infer_gender p = "woman" ↔
        ("GIRLS".data <:+: (pyUpper (p.product_type.getD "")).data
          ∨ "GIRLS".data <:+: (pyUpper (p.title.getD "")).data
          ∨ (∃ t ∈ p.tags.getD [], "GIRL".data <:+: (pyUpper t).data)
          ∨ "WOMEN".data <:+: (pyUpper (p.product_type.getD "")).data
          ∨ "WOMEN".data <:+: (pyUpper (p.title.getD "")).data)) := by
  simp only [infer_gender]
  split_ifs with hA hB
  · refine ⟨Or.inl rfl, iff_of_true rfl ?_⟩
    rw [Bool.or_eq_true, Bool.or_eq_true, List.any_map, List.any_eq_true] at hA
    rcases hA with (h | h) | ⟨t, ht, hmem⟩
    · exact Or.inl ((strMem_iff _ _).mp h)
    · exact Or.inr (Or.inl ((strMem_iff _ _).mp h))
    · exact Or.inr (Or.inr (Or.inl ⟨t, ht, (strMem_iff _ _).mp hmem⟩))
  · refine ⟨Or.inl rfl, iff_of_true rfl ?_⟩
    rw [Bool.or_eq_true] at hB
    rcases hB with h | h
    · exact Or.inr (Or.inr (Or.inr (Or.inl ((strMem_iff _ _).mp h))))
    · exact Or.inr (Or.inr (Or.inr (Or.inr ((strMem_iff _ _).mp h))))
  · refine ⟨Or.inr rfl, iff_of_false (by simp) ?_⟩
    intro hcon
    simp only [Bool.or_eq_true, List.any_map, List.any_eq_true, not_or] at hA hB
    push_neg at hA
    rcases hcon with h | h | ⟨t, ht, hI⟩ | h | h
    · exact hA.1.1 ((strMem_iff _ _).mpr h)
    · exact hA.1.2 ((strMem_iff _ _).mpr h)
    · exact hA.2 t ht ((strMem_iff _ _).mpr hI)
    · exact hB.1 ((strMem_iff _ _).mpr h)
    · exact hB.2 ((strMem_iff _ _).mpr h)

/-- Witness for C7: a girl marker appearing only in a tag classifies the
listing as "woman". -/
theorem claim_C7_witness :
    infer_gender { tags := some ["girls club"] } = "woman" :=
  (claim_C7 { tags := some ["girls club"] }).2.mpr
    (Or.inr (Or.inr (Or.inl ⟨"girls club", by decide, (strMem_iff _ _).mp (by decide)⟩)))

/-- Counterexample to C5 as stated: a variant whose only price value is a
string rejected by `float` yields the non-null price "freeEUR", which is not
a fixed two-decimal amount followed by the currency code. -/
theorem claim_C5_counterexample :
    price_string { variants := some [{ price := some (.nonnum "free") }] } = some "freeEUR"
    ∧ moneyFormat "freeEUR" = false := by
  refine ⟨by decide, by decide⟩

/-- C5 amended: the price comes from the first variant only, preferring a
truthy compare-at value over the direct price, null when no variant or no
truthy value; a value accepted by `float` is rendered as a fixed two-decimal
amount followed by the currency code, while a value rejected by `float` is
emitted verbatim with the currency code appended. -/
theorem claim_C5 (p : Product) :
    (p.variants.getD [] = [] → price_string p = none)
    ∧ (∀ v rest, p.variants.getD [] = v :: rest →
        (truthy (if truthy v.compare_at_price then v.compare_at_price else v.price) = false →
          price_string p = none)
        ∧ (∀ s q,
            (if truthy v.compare_at_price then v.compare_at_price else v.price)
              = some (PVal.num s q) → s ≠ "" →
            price_string p = some ⟨fmt2Chars q ++ [ 'E', 'U', 'R']⟩
            ∧ moneyFormat ⟨fmt2Chars q ++ [ 'E', 'U', 'R']⟩ = true)
        ∧ (∀ s,
            (if truthy v.compare_at_price then v.compare_at_price else v.price)
              = some (PVal.nonnum s) → s ≠ "" →
            price_string p = some (s ++ "EUR"))) := by
  constructor
  · intro h
    unfold price_string
    rw [h]
  · intro v rest h
    unfold price_string
    rw [h]
    dsimp only
    refine ⟨?_, ?_, ?_⟩
    · intro hf
      rw [hf]
      rfl
    · intro s q hv hs
      rw [hv]
      have ht : truthy (some (PVal.num s q)) = true := by
        simp [truthy, PVal.str, hs]
      rw [ht]
      exact ⟨rfl, moneyChars_fmt2 q⟩
    · intro s hv hs
      rw [hv]
      have ht : truthy (some (PVal.nonnum s)) = true := by
        simp [truthy, PVal.str, hs]
      rw [ht]
      rfl

/-- The variant of the spec's price-formatting example: direct price 54.99,
compare-at price 159.99. -/
def varSpecExample : Variant :=
  { price := some (.num "54.99" (54.99 : ℚ)),
    compare_at_price := some (.num "159.99" (159.99 : ℚ)) }

def prodSpecExample : Product := { variants := some [varSpecExample] }

/-- Witness for C5, mirroring the spec's example: compare-at 159.99 with
direct price 54.99 gives price "159.99EUR". -/
theorem claim_C5_witness :
    price_string prodSpecExample = some ⟨fmt2Chars (159.99 : ℚ) ++ [ 'E', 'U', 'R']⟩
    ∧ moneyFormat ⟨fmt2Chars (159.99 : ℚ) ++ [ 'E', 'U', 'R']⟩ = true
    ∧ (⟨fmt2Chars (159.99 : ℚ) ++ [ 'E', 'U', 'R']⟩ : String) = "159.99EUR" := by
  have h := ((claim_C5 prodSpecExample).2
    _ _ rfl).2.1 "159.99" (159.99 : ℚ) rfl (by decide)
  have hr : round ((159.99 : ℚ) * 100) = 15999 := by
    have h100 : (159.99 : ℚ) * 100 = ((15999 : ℤ) : ℚ) := by norm_num
    rw [h100, round_intCast]
  have hstr : (⟨fmt2Chars (159.99 : ℚ) ++ [ 'E', 'U', 'R']⟩ : String) = "159.99EUR" := by
    unfold fmt2Chars
    rw [hr]
    decide
  exact ⟨h.1, h.2, hstr⟩

/-- Counterexample to C6 as stated: a variant with a truthy compare-at value
and a direct price rejected by `float` yields the non-null sale "freeEUR"
although no strictly-lower comparison ever succeeded. -/
theorem claim_C6_counterexample :
    sale_value { variants := some [⟨some (.nonnum "free"), some (.nonnum "xyz")⟩] }
      = some "freeEUR" := by
  decide

/-- C6 amended: the sale comes from the first variant only; it is the
formatted direct price when both values parse as floats and the direct price
is strictly below the compare-at price; when the compare-at field is truthy
but either value is rejected by `float`, the raw direct price is emitted with
the currency code appended; in every other case sale is null. -/
theorem claim_C6 (p : Product) :
    (p.variants.getD [] = [] → sale_value p = none)
    ∧ (∀ v rest, p.variants.getD [] = v :: rest →
        (truthy v.price = false → sale_value p = none)
        ∧ (truthy v.compare_at_price = false → sale_value p = none)
        ∧ (∀ sp qp sc qc, v.price = some (PVal.num sp qp) → sp ≠ "" →
            v.compare_at_price = some (PVal.num sc qc) → sc ≠ "" →
            sale_value p = (if qp < qc then some ⟨fmt2Chars qp ++ [ 'E', 'U', 'R']⟩ else none)
            ∧ moneyFormat ⟨fmt2Chars qp ++ [ 'E', 'U', 'R']⟩ = true)
        ∧ (∀ pv cv, v.price = some pv → pv.str ≠ "" →
            v.compare_at_price = some cv → cv.str ≠ "" →
            (pv.toNum = none ∨ cv.toNum = none) →
            sale_value p = some (pv.str ++ "EUR"))) := by
  constructor
  · intro h
    unfold sale_value
    rw [h]
  · intro v rest h
    unfold sale_value
    rw [h]
    dsimp only
    refine ⟨?_, ?_, ?_, ?_⟩
    · intro hf
      cases hp : v.price with
      | none => rfl
      | some pv =>
        rw [hp] at hf
        have hs : pv.str = "" := by
          by_contra hne
          simp [truthy, hne] at hf
        dsimp only
        rw [if_pos hs]
    · intro hf
      cases hp : v.price with
      | none => rfl
      | some pv =>
        dsimp only
        by_cases hs : pv.str = ""
        · rw [if_pos hs]
        · rw [if_neg hs]
          cases hc : v.compare_at_price with
          | none => rfl
          | some cv =>
            rw [hc] at hf
            have hcs : cv.str = "" := by
              by_contra hne
              simp [truthy, hne] at hf
            dsimp only
            rw [if_pos hcs]
    · intro sp qp sc qc hp hsp hc hsc
      rw [hp]
      dsimp only
      rw [if_neg (show ¬(PVal.num sp qp).str = "" from hsp), hc]
      dsimp only
      rw [if_neg (show ¬(PVal.num sc qc).str = "" from hsc)]
      exact ⟨rfl, moneyChars_fmt2 qp⟩
    · intro pv cv hp hps hc hcs hnum
      rw [hp]
      dsimp only
      rw [if_neg hps, hc]
      dsimp only
      rw [if_neg hcs]
      cases pv with
      | num sp qp =>
        cases cv with
        | num sc qc =>
          rcases hnum with hn | hn <;> simp [PVal.toNum] at hn
        | nonnum sc => rfl
      | nonnum sp =>
        cases cv with
        | num sc qc => rfl
        | nonnum sc => rfl

/-- Witness for C6, mirroring the spec's example: direct price 54.99 strictly
below compare-at 159.99 gives sale "54.99EUR". -/
theorem claim_C6_witness :
    sale_value prodSpecExample = some ⟨fmt2Chars (54.99 : ℚ) ++ [ 'E', 'U', 'R']⟩
    ∧ (⟨fmt2Chars (54.99 : ℚ) ++ [ 'E', 'U', 'R']⟩ : String) = "54.99EUR" := by
  have h := ((claim_C6 prodSpecExample).2
    _ _ rfl).2.2.1 "54.99" (54.99 : ℚ) "159.99" (159.99 : ℚ) rfl (by decide) rfl (by decide)
  have hlt : (54.99 : ℚ) < 159.99 := by norm_num
  have hr : round ((54.99 : ℚ) * 100) = 5499 := by
    have h100 : (54.99 : ℚ) * 100 = ((5499 : ℤ) : ℚ) := by norm_num
    rw [h100, round_intCast]
  have hstr : (⟨fmt2Chars (54.99 : ℚ) ++ [ 'E', 'U', 'R']⟩ : String) = "54.99EUR" := by
    unfold fmt2Chars
    rw [hr]
    decide
  refine ⟨?_, hstr⟩
  rw [h.1, if_pos hlt]

/-- A page whose three attempts all fail is treated as empty, after sleeping
1 and 2 delay units between attempts (linear backoff, no sleep after the
last attempt). -/
theorem fetch_all_fail (oracle : Nat → Nat → Option (List Product)) (page : Nat)
    (h : ∀ a, a < MAX_RETRIES → oracle page a = none) :
    fetch_collection_page oracle page = ([], [1, 2]) := by
  have h0 := h 0 (by simp [MAX_RETRIES])
  have h1 := h 1 (by simp [MAX_RETRIES])
  have h2 := h 2 (by simp [MAX_RETRIES])
  unfold fetch_collection_page
  simp [MAX_RETRIES, fetchAttempts, h0, h1, h2]

/-- The page loop, started at `page` with enough fuel: when the pages
`page, …, page + k - 1` are nonempty and page `page + k` is effectively
empty, the loop emits exactly the listings of those pages in ascending page
order and requests exactly the pages `page, …, page + k`. -/
theorem streamAux_spec (oracle : Nat → Nat → Option (List Product)) :
    ∀ (k page fuel : Nat),
      (∀ i, i < k → (fetch_collection_page oracle (page + i)).1 ≠ []) →
      (fetch_collection_page oracle (page + k)).1 = [] →
      k + 1 ≤ fuel →
      streamAux oracle fuel page
        = (((List.range k).map fun i => (fetch_collection_page oracle (page + i)).1).flatten,
           (List.range (k + 1)).map (page + ·)) := by
  intro k
  induction k with
  | zero =>
    intro page fuel hne hk hfuel
    obtain ⟨f, rfl⟩ : ∃ f, fuel = f + 1 := ⟨fuel - 1, by omega⟩
    rw [Nat.add_zero] at hk
    simp only [streamAux, hk, List.isEmpty_nil, if_true]
    simp [List.range_succ]
  | succ k ih =>
    intro page fuel hne hk hfuel
    obtain ⟨f, rfl⟩ : ∃ f, fuel = f + 1 := ⟨fuel - 1, by omega⟩
    have h0 : (fetch_collection_page oracle (page + 0)).1 ≠ [] := hne 0 (by omega)
    rw [Nat.add_zero] at h0
    have hne2 : ∀ i, i < k → (fetch_collection_page oracle ((page + 1) + i)).1 ≠ [] := by
      intro i hi
      have hx := hne (i + 1) (by omega)
      rwa [show page + (i + 1) = page + 1 + i by omega] at hx
    have hk2 : (fetch_collection_page oracle ((page + 1) + k)).1 = [] := by
      have hx := hk
      rwa [show page + (k + 1) = page + 1 + k by omega] at hx
    have hih := ih (page + 1) f hne2 hk2 (by omega)
    simp only [streamAux]
    rw [if_neg (by simp [List.isEmpty_iff, h0])]
    rw [hih]
    simp only [Prod.mk.injEq]
    constructor
    · rw [show List.range (k + 1) = 0 :: List.map Nat.succ (List.range k)
        from List.range_succ_eq_map k]
      simp only [List.map_cons, List.flatten_cons, List.map_map, Nat.add_zero]
      congr 1
      apply congrArg
      apply List.map_congr_left
      intro i hi
      have hx : page + Nat.succ i = page + 1 + i := by omega
      simp only [Function.comp_apply, hx]
    · rw [show List.range (k + 1 + 1) = 0 :: List.map Nat.succ (List.range (k + 1))
        from List.range_succ_eq_map (k + 1)]
      simp only [List.map_cons, List.map_map, Nat.add_zero]
      congr 1
      apply List.map_congr_left
      intro i hi
      simp only [Function.comp_apply]
      omega

/-- C8: the pager requests pages 1, 2, 3, … in strictly ascending order and
yields the listings of the pages before the first effectively-empty page, in
source order; it stops exactly at the first page yielding zero listings, so
with such a page the result is the same for every sufficient fuel; a page
whose attempts all fail is treated as empty after linear-backoff sleeps. -/
theorem claim_C8 (oracle : Nat → Nat → Option (List Product)) (k fuel : Nat)
    (hne : ∀ i, i < k → (fetch_collection_page oracle (1 + i)).1 ≠ [])
    (hempty : (fetch_collection_page oracle (1 + k)).1 = [])
    (hfuel : k + 1 ≤ fuel) :
    stream_all_products oracle fuel
      = (((List.range k).map fun i => (fetch_collection_page oracle (1 + i)).1).flatten,
         List.range' 1 (k + 1))
    ∧ (∀ page, (∀ a, a < MAX_RETRIES → oracle page a = none) →
        fetch_collection_page oracle page = ([], [1, 2])) := by
  constructor
  · unfold stream_all_products
    rw [streamAux_spec oracle k 1 fuel hne hempty hfuel]
    rw [List.range'_eq_map_range]
  · intro page hfailp
    exact fetch_all_fail oracle page hfailp

/-- Witness for C8: a two-page source (page 1 nonempty, page 2 empty). -/
theorem claim_C8_witness :
    stream_all_products (fun page _ => some (if page = 1 then [({} : Product)] else [])) 2
      = (((List.range 1).map fun i =>
            (fetch_collection_page
              (fun page _ => some (if page = 1 then [({} : Product)] else [])) (1 + i)).1).flatten,
         List.range' 1 2) :=
  (claim_C8 (fun page _ => some (if page = 1 then [({} : Product)] else [])) 1 2
    (by decide) (by decide) (by omega)).1

/-! ## Real-analysis helpers for dimension fitting -/

theorem sumSq_nonneg (v : List ℝ) : 0 ≤ sumSq v := by
  induction v with
  | nil => simp [sumSq]
  | cons x xs ih => exact add_nonneg (sq_nonneg x) ih

theorem l2norm_nonneg (v : List ℝ) : 0 ≤ l2norm v := Real.sqrt_nonneg _

theorem l2norm_eq_zero_iff (v : List ℝ) : l2norm v = 0 ↔ sumSq v = 0 := by
  unfold l2norm
  exact Real.sqrt_eq_zero (sumSq_nonneg v)

theorem sumSq_map_div (v : List ℝ) (c : ℝ) :
    sumSq (v.map fun x => x / c) = sumSq v / c ^ 2 := by
  induction v with
  | nil => simp [sumSq]
  | cons x xs ih =>
    show (x / c) ^ 2 + sumSq (xs.map fun x => x / c) = (x ^ 2 + sumSq xs) / c ^ 2
    rw [ih, div_pow, add_div]

theorem l2norm_map_div (v : List ℝ) (c : ℝ) (hc : 0 ≤ c) :
    l2norm (v.map fun x => x / c) = l2norm v / c := by
  unfold l2norm
  rw [sumSq_map_div, Real.sqrt_div (sumSq_nonneg v) (c ^ 2), Real.sqrt_sq hc]

theorem l2norm_normalize (v : List ℝ) (h : l2norm v ≠ 0) :
    l2norm (v.map fun x => x / l2norm v) = 1 := by
  rw [l2norm_map_div v _ (l2norm_nonneg v), div_self h]

theorem sumSq_append (a b : List ℝ) : sumSq (a ++ b) = sumSq a + sumSq b := by
  unfold sumSq
  rw [List.map_append, List.sum_append]

theorem sumSq_replicate_zero (n : Nat) : sumSq (List.replicate n (0 : ℝ)) = 0 := by
  unfold sumSq
  rw [List.map_replicate]
  simp

theorem l2norm_append_zeros (v : List ℝ) (n : Nat) :
    l2norm (v ++ List.replicate n (0 : ℝ)) = l2norm v := by
  unfold l2norm
  rw [sumSq_append, sumSq_replicate_zero, add_zero]

/-- Counterexample to C4 as stated: the length-1000 vector that is zero
everywhere except its last coordinate has norm 1, yet dimension fitting
returns the all-zero vector of length 768 (norm 0, not 1): the truncation
zeroed the vector and the guarded re-normalization is skipped. -/
theorem claim_C4_counterexample :
    (List.replicate 999 (0 : ℝ) ++ [1]).length = 1000
    ∧ l2norm (List.replicate 999 (0 : ℝ) ++ [1]) = 1
    ∧ ensure_dim (List.replicate 999 (0 : ℝ) ++ [1]) = some (List.replicate 768 (0 : ℝ))
    ∧ l2norm (List.replicate 768 (0 : ℝ)) = 0 := by
  have hzero768 : l2norm (List.replicate 768 (0 : ℝ)) = 0 := by
    rw [l2norm_eq_zero_iff]
    exact sumSq_replicate_zero 768
  have hnorm : l2norm (List.replicate 999 (0 : ℝ) ++ [1]) = 1 := by
    unfold l2norm
    rw [sumSq_append, sumSq_replicate_zero, zero_add]
    show Real.sqrt ((1 : ℝ) ^ 2 + 0) = 1
    rw [add_zero, one_pow, Real.sqrt_one]
  have hlen1000 : (List.replicate 999 (0 : ℝ) ++ [1]).length = 1000 := by
    rw [List.length_append, List.length_replicate]
    rfl
  refine ⟨hlen1000, hnorm, ?_, hzero768⟩
  unfold ensure_dim
  rw [hnorm]
  rw [if_neg (by norm_num)]
  have hmap : (List.replicate 999 (0 : ℝ) ++ [1]).map (fun x => x / 1)
      = List.replicate 999 (0 : ℝ) ++ [1] := by
    rw [List.map_append, List.map_replicate]
    norm_num
  rw [hmap]
  rw [if_neg (by rw [hlen1000]; decide), if_pos (by rw [hlen1000]; decide)]
  dsimp only
  have htake : (List.replicate 999 (0 : ℝ) ++ [1]).take EMBEDDING_DIM
      = List.replicate 768 (0 : ℝ) := by
    rw [show (999 : Nat) = 768 + 231 from rfl, List.replicate_add, List.append_assoc]
    rw [show EMBEDDING_DIM = 768 from rfl]
    exact List.take_left' (List.length_replicate 768 0)
  rw [htake, hzero768, if_neg (lt_irrefl 0)]

/-- C4 amended: for an input of length 500, 768 or 1000 with nonzero norm the
fitted output exists and has length exactly 768; its norm is 1 whenever the
input is not longer than 768, and also in the longer case provided the
truncation of the normalized input has nonzero norm (otherwise the output is
the zero vector).  A zero-norm input yields no embedding. -/
theorem claim_C4 (v : List ℝ) (hlen : v.length = 500 ∨ v.length = 768 ∨ v.length = 1000) :
    (l2norm v = 0 → ensure_dim v = none)
    ∧ (l2norm v ≠ 0 →
        ∃ w, ensure_dim v = some w ∧ w.length = 768
          ∧ (v.length ≤ 768 → l2norm w = 1)
          ∧ (l2norm ((v.map fun x => x / l2norm v).take 768) ≠ 0 → l2norm w = 1)) := by
  constructor
  · intro h0
    unfold ensure_dim
    rw [if_pos (le_of_eq h0)]
  · intro hne
    have hpos : 0 < l2norm v := lt_of_le_of_ne (l2norm_nonneg v) (Ne.symm hne)
    have hu1 : l2norm (v.map fun x => x / l2norm v) = 1 := l2norm_normalize v hne
    have hul : (v.map fun x => x / l2norm v).length = v.length := List.length_map _ _
    unfold ensure_dim
    rw [if_neg (not_le.mpr hpos)]
    rcases hlen with h | h | h
    · rw [if_neg (by rw [hul, h]; decide), if_neg (by rw [hul, h]; decide)]
      dsimp only
      have hpnorm : l2norm ((v.map fun x => x / l2norm v)
          ++ List.replicate (EMBEDDING_DIM - (v.map fun x => x / l2norm v).length) 0) = 1 := by
        rw [l2norm_append_zeros]
        exact hu1
      rw [hpnorm, if_pos (by norm_num)]
      refine ⟨_, rfl, ?_, fun _ => ?_, fun _ => ?_⟩
      · rw [List.length_map, List.length_append, List.length_replicate, hul, h]
        decide
      · have := l2norm_normalize ((v.map fun x => x / l2norm v)
          ++ List.replicate (EMBEDDING_DIM - (v.map fun x => x / l2norm v).length) 0)
          (by rw [hpnorm]; exact one_ne_zero)
        rwa [hpnorm] at this
      · have := l2norm_normalize ((v.map fun x => x / l2norm v)
          ++ List.replicate (EMBEDDING_DIM - (v.map fun x => x / l2norm v).length) 0)
          (by rw [hpnorm]; exact one_ne_zero)
        rwa [hpnorm] at this
    · rw [if_pos (by rw [hul, h]; decide)]
      exact ⟨_, rfl, by rw [hul, h], fun _ => hu1, fun _ => hu1⟩
    · rw [if_neg (by rw [hul, h]; decide), if_pos (by rw [hul, h]; decide)]
      dsimp only
      have htlen : ((v.map fun x => x / l2norm v).take EMBEDDING_DIM).length = 768 := by
        rw [List.length_take, hul, h]
        decide
      by_cases ht : 0 < l2norm ((v.map fun x => x / l2norm v).take EMBEDDING_DIM)
      · rw [if_pos ht]
        refine ⟨_, rfl, by rw [List.length_map, htlen], fun hcon => ?_, fun _ => ?_⟩
        · rw [h] at hcon
          omega
        · exact l2norm_normalize _ (ne_of_gt ht)
      · rw [if_neg ht]
        refine ⟨_, rfl, htlen, fun hcon => ?_, fun hnz => ?_⟩
        · rw [h] at hcon
          omega
        · have hz : l2norm ((v.map fun x => x / l2norm v).take EMBEDDING_DIM) = 0 :=
            le_antisymm (not_lt.mp ht) (l2norm_nonneg _)
          exact absurd (show l2norm ((v.map fun x => x / l2norm v).take 768) = 0 from hz) hnz

/-- Witness for C4: the length-500 unit vector `(1, 0, …, 0)` fits to a
length-768 vector of norm 1. -/
theorem claim_C4_witness :
    ∃ w, ensure_dim ((1 : ℝ) :: List.replicate 499 0) = some w
      ∧ w.length = 768 ∧ l2norm w = 1 := by
  have hnorm : l2norm ((1 : ℝ) :: List.replicate 499 0) = 1 := by
    unfold l2norm
    show Real.sqrt ((1 : ℝ) ^ 2 + sumSq (List.replicate 499 0)) = 1
    rw [sumSq_replicate_zero, add_zero, one_pow, Real.sqrt_one]
  have hlen : ((1 : ℝ) :: List.replicate 499 0).length = 500 := by
    rw [List.length_cons, List.length_replicate]
  obtain ⟨w, hw1, hw2, hw3, _⟩ :=
    (claim_C4 ((1 : ℝ) :: List.replicate 499 0) (Or.inl hlen)).2
      (by rw [hnorm]; exact one_ne_zero)
  exact ⟨w, hw1, hw2, hw3 (by rw [hlen]; omega)⟩

end MMScraper
